import Mathlib

/-
Verification of the touchdeck Media Control & Synchronization subsystem.

The definitions below are shallow embeddings of the Python source:
  - `LyricLine`, `SyncedLyrics`, `SyncedLyrics.line_at` from touchdeck/LRCLIB.py
  - `MediaState`, `MediaManager.get_state` from touchdeck/utils.py and touchdeck/media.py
Exceptions are modelled as explicit outcome values, machine integers as `Int`/`Nat`
(Python integers are unbounded, so no wrap-around modelling is needed).
-/

namespace Touchdeck

/-! ### Data model: lyric lines (LRCLIB.py) -/

structure LyricLine where
  at_ms : Int
  text : String
deriving Repr, DecidableEq

structure SyncedLyrics where
  lines : List LyricLine
deriving Repr, DecidableEq

/-- Embeds the scan loop of `SyncedLyrics.line_at`: walk the lines, remembering the
text of the last line whose timestamp is at most the position, stopping at the
first line whose timestamp exceeds it. -/
def lineScan : List LyricLine → Int → String → String
  | [], _, last => last
  | l :: ls, p, _last => if p < l.at_ms then _last else lineScan ls p l.text

/-- Embeds `SyncedLyrics.line_at` (LRCLIB.py lines 31-41): empty list or position
before the first timestamp yields the empty string, otherwise a linear scan. -/
def SyncedLyrics.line_at (self : SyncedLyrics) (position_ms : Int) : String :=
  match self.lines with
  | [] => ""
  | l0 :: _ => if position_ms < l0.at_ms then "" else lineScan self.lines position_ms ""

/-- Lines sorted ascending by timestamp. -/
def sortedByAt (ls : List LyricLine) : Prop :=
  List.Pairwise (fun a b => a.at_ms ≤ b.at_ms) ls

instance (ls : List LyricLine) : Decidable (sortedByAt ls) :=
  List.instDecidablePairwise ls

theorem lineScan_spec (P : Int) (ls : List LyricLine) :
    List.Pairwise (fun a b => a.at_ms ≤ b.at_ms) ls →
    ∀ acc : String,
      ((∀ l ∈ ls, P < l.at_ms) ∧ lineScan ls P acc = acc) ∨
      (∃ l ∈ ls, l.at_ms ≤ P ∧
        (∀ l2 ∈ ls, l2.at_ms ≤ P → l2.at_ms ≤ l.at_ms) ∧ lineScan ls P acc = l.text) := by
  induction ls with
  | nil =>
    intro _ acc
    exact Or.inl ⟨by simp, rfl⟩
  | cons l ls ih =>
    intro hp acc
    rcases List.pairwise_cons.mp hp with ⟨hle, hp2⟩
    by_cases h : P < l.at_ms
    · left
      refine ⟨?_, by simp [lineScan, h]⟩
      intro x hx
      rcases List.mem_cons.mp hx with rfl | hx2
      · exact h
      · exact lt_of_lt_of_le h (hle x hx2)
    · push_neg at h
      right
      rcases ih hp2 l.text with ⟨hall, heq⟩ | ⟨w, hw, hwle, hwmax, heq⟩
      · refine ⟨l, List.mem_cons_self l ls, h, ?_, by simp [lineScan, not_lt.mpr h, heq]⟩
        intro x hx hxP
        rcases List.mem_cons.mp hx with rfl | hx2
        · exact le_refl _
        · exact absurd hxP (not_le.mpr (hall x hx2))
      · refine ⟨w, List.mem_cons_of_mem l hw, hwle, ?_, by simp [lineScan, not_lt.mpr h, heq]⟩
        intro x hx hxP
        rcases List.mem_cons.mp hx with rfl | hx2
        · exact hle w hw
        · exact hwmax x hx2 hxP

/-- C1: for a SyncedLyrics value whose lines are sorted ascending by timestamp,
`line_at` returns the empty string when there are no lines or the position
precedes the first timestamp, and otherwise returns the text of a line with the
greatest timestamp at most the position. -/
theorem C1_line_at_active_line (L : SyncedLyrics) (P : Int) (hs : sortedByAt L.lines) :
    (L.lines = [] → L.line_at P = "") ∧
    (∀ l0 ls, L.lines = l0 :: ls → P < l0.at_ms → L.line_at P = "") ∧
    (∀ l0 ls, L.lines = l0 :: ls → l0.at_ms ≤ P →
      ∃ l ∈ L.lines, l.at_ms ≤ P ∧
        (∀ l2 ∈ L.lines, l2.at_ms ≤ P → l2.at_ms ≤ l.at_ms) ∧ L.line_at P = l.text) := by
  refine ⟨?_, ?_, ?_⟩
  · intro h
    simp [SyncedLyrics.line_at, h]
  · intro l0 ls h hP
    simp [SyncedLyrics.line_at, h, hP]
  · intro l0 ls h hP
    have hline : L.line_at P = lineScan L.lines P "" := by
      simp [SyncedLyrics.line_at, h, not_lt.mpr hP]
    have hs2 : List.Pairwise (fun a b => a.at_ms ≤ b.at_ms) L.lines := hs
    rcases lineScan_spec P L.lines hs2 "" with ⟨hall, _⟩ | ⟨w, hw, hwle, hwmax, heq⟩
    · exact absurd hP (not_le.mpr (hall l0 (by simp [h])))
    · exact ⟨w, hw, hwle, hwmax, by rw [hline, heq]⟩

theorem C1_line_at_active_line_witness :
    SyncedLyrics.line_at ⟨[⟨0, "a"⟩, ⟨10, "b"⟩]⟩ 5 = "a" := by
  have h := (C1_line_at_active_line ⟨[⟨0, "a"⟩, ⟨10, "b"⟩]⟩ 5 (by decide)).2.2
    ⟨0, "a"⟩ [⟨10, "b"⟩] rfl (by decide)
  rcases h with ⟨l, hmem, hle, -, heq⟩
  rcases List.mem_cons.mp hmem with rfl | hmem2
  · exact heq
  · rcases List.mem_cons.mp hmem2 with rfl | hmem3
    · exact absurd hle (by decide)
    · simp at hmem3

/-! ### Data model: media snapshots (utils.py) and the provider facade (media.py) -/

structure MediaState where
  source : String := "mpris"
  title : String := "Nothing Playing"
  artist : String := ""
  album : String := ""
  art_url : Option String := none
  is_playing : Bool := false
  progress_ms : Int := 0
  duration_ms : Int := 0
  device_name : String := ""
  volume_percent : Option Int := none
  can_seek : Bool := false
  can_control : Bool := false
  track_id : Option String := none
  bus_name : String := ""
  status : String := "Stopped"
  message : String := ""
deriving Repr, DecidableEq

/-- Outcome of one `provider.get_state()` call: a normal return, a raised
`MediaError` carrying its `user_message`, or any other raised exception. -/
inductive ProviderOutcome where
  | ok (state : MediaState)
  | mediaError (user_message : String)
  | otherError
deriving Repr, DecidableEq

/-- Embeds `MediaManager.get_state` (media.py lines 72-81): on a normal provider
return the snapshot's source is overwritten; a raised `MediaError` maps to a
default state with status "Error" and the error's message; any other exception
maps to a default state with only the source set. -/
def MediaManager.get_state (source : String) (outcome : ProviderOutcome) : MediaState :=
  match outcome with
  | .ok s => { s with source := source }
  | .mediaError msg => { source := source, status := "Error", message := msg }
  | .otherError => { source := source }

/-- C2 counterexample: a provider raising a non-MediaError exception makes
`get_state` return the neutral default state, whose status is "Stopped" and
whose message is empty, so the claim that every raising provider yields status
"Error" with a non-empty message is false. -/
theorem C2_counterexample :
    ¬ ((MediaManager.get_state "mpris" ProviderOutcome.otherError).status = "Error" ∧
       (MediaManager.get_state "mpris" ProviderOutcome.otherError).message ≠ "") := by
  decide

/-- C2 (amended): `get_state` never propagates a provider exception; it returns
status "Error" exactly when the provider raised a `MediaError`, and in that case
the returned message is the error's message and the source is the configured
source. Any other exception yields the neutral default state: the full record
with every field at its default except the source, hence status "Stopped" and
an empty message. -/
theorem C2_get_state_error_taxonomy (source : String) (o : ProviderOutcome)
    (herr : ∀ s, o ≠ ProviderOutcome.ok s) :
    ((MediaManager.get_state source o).status = "Error" ↔
      ∃ msg, o = ProviderOutcome.mediaError msg) ∧
    (∀ msg, o = ProviderOutcome.mediaError msg →
      (MediaManager.get_state source o).message = msg ∧
      (MediaManager.get_state source o).source = source) ∧
    (o = ProviderOutcome.otherError →
      MediaManager.get_state source o = { source := source } ∧
      (MediaManager.get_state source o).status = "Stopped" ∧
      (MediaManager.get_state source o).message = "") := by
  cases o with
  | ok s => exact absurd rfl (herr s)
  | mediaError msg =>
    refine ⟨⟨fun _ => ⟨msg, rfl⟩, fun _ => rfl⟩, ?_, ?_⟩
    · intro msg2 hmsg
      cases hmsg
      exact ⟨rfl, rfl⟩
    · intro hother
      cases hother
  | otherError =>
    refine ⟨⟨fun h => ?_, fun h => ?_⟩, ?_, ?_⟩
    · have hne : (MediaManager.get_state source ProviderOutcome.otherError).status = "Stopped" := rfl
      rw [hne] at h
      exact absurd h (by decide)
    · rcases h with ⟨msg, hmsg⟩
      cases hmsg
    · intro msg hmsg
      cases hmsg
    · intro _
      exact ⟨rfl, rfl, rfl⟩

theorem C2_get_state_error_taxonomy_witness :
    (MediaManager.get_state "mpris" (ProviderOutcome.mediaError "boom")).status = "Error" ∧
    (MediaManager.get_state "mpris" (ProviderOutcome.mediaError "boom")).message = "boom" ∧
    MediaManager.get_state "mpris" ProviderOutcome.otherError = { source := "mpris" } ∧
    (MediaManager.get_state "mpris" ProviderOutcome.otherError).status = "Stopped" := by
  have h := C2_get_state_error_taxonomy "mpris" (ProviderOutcome.mediaError "boom")
    (fun s hs => ProviderOutcome.noConfusion hs)
  have h2 := C2_get_state_error_taxonomy "mpris" ProviderOutcome.otherError
    (fun s hs => ProviderOutcome.noConfusion hs)
  exact ⟨h.1.mpr ⟨"boom", rfl⟩, (h.2.1 "boom" rfl).1, (h2.2.2 rfl).1, (h2.2.2 rfl).2.1⟩

/-! ### Quick actions: per-key dedup (ui/window.py `DeckWindow._run_custom_action`) -/

structure CustomQuickAction where
  key : String
  title : String
  command : String
  timeout_ms : Int
deriving Repr, DecidableEq

/-- Membership test `action.key in self._running_custom_actions`. The running map
is modelled as an association list from action key to an abstract handle id. -/
def runningHasKey (m : List (String × Nat)) (key : String) : Bool :=
  m.any (fun kv => kv.1 == key)

/-- Number of running entries held under a given key. -/
def keyCount (m : List (String × Nat)) (key : String) : Nat :=
  (m.filter (fun kv => kv.1 == key)).length

theorem keyCount_zero_iff (m : List (String × Nat)) (k : String) :
    keyCount m k = 0 ↔ runningHasKey m k = false := by
  induction m with
  | nil => simp [keyCount, runningHasKey]
  | cons kv m ih =>
    by_cases h : kv.1 == k
    · simp [keyCount, runningHasKey, h]
    · simp only [keyCount, runningHasKey, List.filter, List.any, h] at ih ⊢
      exact ih

theorem keyCount_append_self (m : List (String × Nat)) (k : String) (h : Nat) :
    keyCount (m ++ [(k, h)]) k = keyCount m k + 1 := by
  simp [keyCount, List.filter_append]

/-- Program counter of one `_run_custom_action` asyncio task. The coroutine has
exactly one suspension point between the dedup guard (window.py line 935) and
the map insertion (line 957): `await self._media.get_state()` (line 937); each
trigger is scheduled as an independent task (line 921). -/
inductive TaskPC where
  | start
  | awaiting
  | done
deriving Repr, DecidableEq

/-- One triggered `_run_custom_action(action)` task: the action key, an abstract
handle identifying the `_RunningCommand` it would insert, and its progress. -/
structure ActionTask where
  key : String
  handle : Nat
  pc : TaskPC
deriving Repr, DecidableEq

/-- The shared state of the event loop: the `_running_custom_actions` map, the
workers started so far (`thread.start()`, in start order), and the tasks. -/
structure ExecState where
  running : List (String × Nat)
  spawned : List Nat
  tasks : List ActionTask
deriving Repr, DecidableEq

/-- Python dict assignment `m[k] = v`: overwrite in place when the key exists,
else append. -/
def dictSet (m : List (String × Nat)) (k : String) (v : Nat) : List (String × Nat) :=
  if m.any (fun kv => kv.1 == k) then m.map (fun kv => if kv.1 == k then (k, v) else kv)
  else m ++ [(k, v)]

/-- Embeds one scheduler step of task `i` of `DeckWindow._run_custom_action`
(window.py lines 934-965). From `start` the task runs the dedup guard: when the
key is already in the running map it returns at once (no insertion, no worker),
otherwise it suspends in `await self._media.get_state()`. From `awaiting` it
resumes and runs the rest of the body without further suspension: insert the
`_RunningCommand` under the key and start the worker thread. -/
def stepTask (s : ExecState) (i : Nat) : ExecState :=
  match s.tasks[i]? with
  | none => s
  | some t =>
    match t.pc with
    | .start =>
      if runningHasKey s.running t.key then
        { s with tasks := s.tasks.set i { t with pc := TaskPC.done } }
      else
        { s with tasks := s.tasks.set i { t with pc := TaskPC.awaiting } }
    | .awaiting =>
      { s with running := dictSet s.running t.key t.handle,
               spawned := s.spawned ++ [t.handle],
               tasks := s.tasks.set i { t with pc := TaskPC.done } }
    | .done => s

/-- Run the cooperative scheduler over a schedule of task indices. -/
def runSched (s : ExecState) : List Nat → ExecState
  | [] => s
  | i :: rest => runSched (stepTask s i) rest

/-- Initial state for two triggers of the same action key: the running map,
no worker started yet, and two fresh tasks with distinct handles. -/
def twoTriggers (m : List (String × Nat)) (k : String) (h0 h1 : Nat) : ExecState :=
  { running := m, spawned := [],
    tasks := [⟨k, h0, TaskPC.start⟩, ⟨k, h1, TaskPC.start⟩] }

/-- C7 counterexample: two triggers of the same key, the second arriving while
the first is still suspended in `await get_state` (schedule: guard of task 0,
guard of task 1, resume of task 0, resume of task 1). Both pass the dedup guard
and both start a worker, so "triggering the same key twice before the first
completes results in exactly one running execution" is false of the code; the
second insertion also overwrites the first trigger's running record. -/
theorem C7_counterexample :
    (runSched (twoTriggers [] "k" 0 1) [0, 1, 0, 1]).spawned = [0, 1] ∧
    (runSched (twoTriggers [] "k" 0 1) [0, 1, 0, 1]).spawned.length ≠ 1 := by
  exact ⟨rfl, by decide⟩

/-- C7 (amended): the dedup guard makes a trigger whose key is already in the
running map a no-op: the map and the workers started so far are unchanged.
Consequently, on a serialized schedule — the second trigger's guard runs only
after the first has resumed and inserted its running record — the same key
triggered twice starts exactly one worker and leaves exactly one entry under
the key. Dedup is keyed on map presence only; it does not cover two triggers
that both pass the guard during the first's get_state suspension, which both
start a worker. -/
theorem C7_custom_action_dedup (m : List (String × Nat)) (k : String) (h0 h1 : Nat)
    (hnew : runningHasKey m k = false) :
    (∀ (s : ExecState) (i : Nat) (t : ActionTask), s.tasks[i]? = some t →
      t.pc = TaskPC.start → runningHasKey s.running t.key = true →
      (stepTask s i).running = s.running ∧ (stepTask s i).spawned = s.spawned) ∧
    (runSched (twoTriggers m k h0 h1) [0, 0, 1, 1]).spawned = [h0] ∧
    keyCount (runSched (twoTriggers m k h0 h1) [0, 0, 1, 1]).running k = 1 := by
  have hany : (m.any (fun kv => kv.1 == k)) = false := hnew
  have hdict : dictSet m k h0 = m ++ [(k, h0)] := by
    rw [dictSet, if_neg]
    rw [hany]
    exact Bool.false_ne_true
  have hmem : runningHasKey (m ++ [(k, h0)]) k = true := by
    simp [runningHasKey]
  have hrun : runSched (twoTriggers m k h0 h1) [0, 0, 1, 1] =
      { running := m ++ [(k, h0)], spawned := [h0],
        tasks := [⟨k, h0, TaskPC.done⟩, ⟨k, h1, TaskPC.done⟩] } := by
    simp [runSched, twoTriggers, stepTask, hnew, hdict, hmem]
  refine ⟨?_, ?_, ?_⟩
  · intro s i t ht hpc hhas
    rcases t with ⟨tk, th, tpc⟩
    cases hpc
    constructor <;> simp [stepTask, ht, hhas]
  · rw [hrun]
  · rw [hrun]
    have := keyCount_append_self m k h0
    rw [this, (keyCount_zero_iff m k).mpr hnew]

theorem C7_custom_action_dedup_witness :
    (runSched (twoTriggers [] "k" 0 1) [0, 0, 1, 1]).spawned = [0] ∧
    keyCount (runSched (twoTriggers [] "k" 0 1) [0, 0, 1, 1]).running "k" = 1 := by
  have h := C7_custom_action_dedup [] "k" 0 1 rfl
  exact ⟨h.2.1, h.2.2⟩

/-! ### MPRIS player selection (services/mpris.py `MprisService._pick_player`) -/

/-- Membership test `self._preferred in names` with `_preferred : Optional[str]`. -/
def prefIn (preferred : Option String) (names : List String) : Bool :=
  match preferred with
  | some p => names.contains p
  | none => false

/-- Scan for the first player whose `PlaybackStatus` read returns "Playing".
A `none` status models a property read that raised and was skipped. -/
def findPlaying (status : String → Option String) (names : List String) : Option String :=
  names.find? (fun n => status n == some "Playing")

/-- Embeds `MprisService._pick_player` (mpris.py lines 79-94). Returns the picked
player and the updated `_preferred` field. -/
def pick_player (preferred : Option String) (names : List String)
    (status : String → Option String) : Option String × Option String :=
  match names with
  | [] => (none, preferred)
  | n0 :: rest =>
    if prefIn preferred (n0 :: rest) then (preferred, preferred)
    else
      match findPlaying status (n0 :: rest) with
      | some n => (some n, some n)
      | none => (some n0, some n0)

theorem findPlaying_of_first (status : String → Option String) :
    ∀ (pre : List String) (n : String) (post : List String),
      (∀ x ∈ pre, ¬ status x = some "Playing") → status n = some "Playing" →
      findPlaying status (pre ++ n :: post) = some n := by
  intro pre
  induction pre with
  | nil =>
    intro n post _ hn
    simp [findPlaying, List.find?, hn]
  | cons x pre ih =>
    intro n post hpre hn
    have hx : ¬ status x = some "Playing" := hpre x (by simp)
    have hrest := ih n post (fun y hy => hpre y (by simp [hy])) hn
    simp only [List.cons_append, findPlaying, List.find?]
    rw [show (status x == some "Playing") = false by simpa using hx]
    exact hrest

/-- C9: player selection policy. With a non-empty name list: the previously
chosen player is kept unchanged when still present; otherwise the first
candidate whose status reads "Playing" is selected (and becomes preferred);
otherwise the first enumerated name is selected. -/
theorem C9_pick_player_policy (preferred : Option String) (n0 : String) (rest : List String)
    (status : String → Option String) :
    (∀ p, preferred = some p → p ∈ n0 :: rest →
      pick_player preferred (n0 :: rest) status = (some p, some p)) ∧
    (prefIn preferred (n0 :: rest) = false →
      ∀ pre n post, n0 :: rest = pre ++ n :: post →
        (∀ x ∈ pre, ¬ status x = some "Playing") → status n = some "Playing" →
        pick_player preferred (n0 :: rest) status = (some n, some n)) ∧
    (prefIn preferred (n0 :: rest) = false →
      (∀ x ∈ n0 :: rest, ¬ status x = some "Playing") →
      pick_player preferred (n0 :: rest) status = (some n0, some n0)) := by
  refine ⟨?_, ?_, ?_⟩
  · intro p hp hmem
    subst hp
    have hin : prefIn (some p) (n0 :: rest) = true := by
      simpa [prefIn] using hmem
    simp [pick_player, hin]
  · intro hpref pre n post hsplit hpre hn
    have hfind : findPlaying status (n0 :: rest) = some n := by
      rw [hsplit]
      exact findPlaying_of_first status pre n post hpre hn
    simp [pick_player, hpref, hfind]
  · intro hpref hall
    have hfind : findPlaying status (n0 :: rest) = none := by
      rw [findPlaying, List.find?_eq_none]
      intro x hx
      simpa using hall x hx
    simp [pick_player, hpref, hfind]

/-- Status reads for the scenario's first poll: p1 Paused, p2 Playing. -/
def statusPoll1 : String → Option String :=
  fun n => if n = "p2" then some "Playing" else some "Paused"

/-- Status reads for the scenario's second poll: every player Paused. -/
def statusPoll2 : String → Option String :=
  fun _ => some "Paused"

theorem C9_pick_player_policy_witness :
    pick_player none ["p1", "p2"] statusPoll1 = (some "p2", some "p2") ∧
    pick_player (some "p2") ["p1", "p2"] statusPoll2 = (some "p2", some "p2") := by
  constructor
  · exact (C9_pick_player_policy none "p1" ["p2"] statusPoll1).2.1 rfl
      ["p1"] "p2" [] rfl (by intro x hx; simp at hx; subst hx; decide) (by decide)
  · exact (C9_pick_player_policy (some "p2") "p1" ["p2"] statusPoll2).1 "p2" rfl (by decide)

/-! ### String helpers shared by the lyrics resolver (LRCLIB.py)

Python strings are embedded as `List Char` / `String`. The regex patterns of
LRCLIB.py are fixed, so each is embedded as a dedicated matcher that follows
the Python `re` semantics (leftmost scan, non-overlapping substitution,
greedy/lazy repetition with backtracking) for that concrete pattern. -/

/-- ASCII whitespace as recognised by Python's `str.split`/`str.strip` and `\s`. -/
def pyIsSpace (c : Char) : Bool :=
  c == ' ' || c == '\t' || c == '\n' || c == '\r' || c == '\u000B' || c == '\u000C'

/-- Python `str.strip()`. -/
def stripChars (cs : List Char) : List Char :=
  ((cs.dropWhile pyIsSpace).reverse.dropWhile pyIsSpace).reverse

def splitWsAux : List Char → List Char → List (List Char)
  | [], acc => if acc.isEmpty then [] else [acc.reverse]
  | c :: cs, acc =>
    if pyIsSpace c then
      if acc.isEmpty then splitWsAux cs [] else acc.reverse :: splitWsAux cs []
    else splitWsAux cs (c :: acc)

/-- Python `str.split()` with no argument: split on whitespace runs, no empties. -/
def pySplitWs (cs : List Char) : List (List Char) :=
  splitWsAux cs []

/-- Python `" ".join(words)`. -/
def joinWithSpace : List (List Char) → List Char
  | [] => []
  | [w] => w
  | w :: ws => w ++ ' ' :: joinWithSpace ws

/-- Python `" ".join(text.split()).strip()`, the whitespace normalisation used by
`_clean_title` and `_clean_artist`. -/
def normalizeWs (cs : List Char) : List Char :=
  stripChars (joinWithSpace (pySplitWs cs))

def isOpenBracket (c : Char) : Bool :=
  c == '(' || c == '[' || c == Char.ofNat 123

def isCloseBracket (c : Char) : Bool :=
  c == ')' || c == ']' || c == Char.ofNat 125

/-- Lazy `.*?` up to the first closing bracket, then consume it; `.` does not
match a newline, so a newline before any closer fails the match. -/
def scanToClose : List Char → Option (List Char)
  | [] => none
  | c :: cs =>
    if isCloseBracket c then some cs
    else if c == '\n' then none
    else scanToClose cs

/-- Matcher for `_BRACKET_RE` at the head of the input, pattern
`\s*[\(\[\{].*?[\)\]\}]\s*`; returns the remainder after the match. -/
def matchBracket (cs : List Char) : Option (List Char) :=
  match cs.dropWhile pyIsSpace with
  | c :: rest =>
    if isOpenBracket c then
      match scanToClose rest with
      | some rest2 => some (rest2.dropWhile pyIsSpace)
      | none => none
    else none
  | [] => none

/-- Matcher for `.+$` at the head of the input: one or more non-newline
characters, then the end of the string or a final trailing newline. -/
def matchDotPlusEnd (cs : List Char) : Option (List Char) :=
  let run := cs.takeWhile (fun c => !(c == '\n'))
  let rest := cs.dropWhile (fun c => !(c == '\n'))
  if run.isEmpty then none
  else if rest.isEmpty then some []
  else if rest == ['\n'] then some ['\n']
  else none

/-- Matcher for `\s+.+$` at the head of the input. The greedy `\s+` backtracks
when `.+` would be left empty; every successful split leaves the same
remainder, so attempts are tried shortest-first. -/
def wsPlusDotPlusEnd : List Char → Option (List Char)
  | [] => none
  | c :: rest =>
    if pyIsSpace c then
      match matchDotPlusEnd rest with
      | some lo => some lo
      | none => wsPlusDotPlusEnd rest
    else none

/-- Matcher for `_DASH_RE` at the head of the input, pattern `\s+-\s+.+$`. -/
def matchDash (cs : List Char) : Option (List Char) :=
  match cs with
  | [] => none
  | c :: rest =>
    if pyIsSpace c then
      match rest.dropWhile pyIsSpace with
      | '-' :: rest3 => wsPlusDotPlusEnd rest3
      | _ => none
    else none

/-- Case-insensitive literal match (the keyword is given lowercase); returns the
remainder after the literal. -/
def stripCaseless : List Char → List Char → Option (List Char)
  | [], cs => some cs
  | _, [] => none
  | k :: ks, c :: cs => if c.toLower == k then stripCaseless ks cs else none

/-- Matcher for `_FEAT_RE` at the head of the input, pattern
`\s+(?:feat\.|ft\.|featuring)\s+.+$` with IGNORECASE. -/
def matchFeat (cs : List Char) : Option (List Char) :=
  match cs with
  | [] => none
  | c :: rest =>
    if pyIsSpace c then
      let rest2 := rest.dropWhile pyIsSpace
      (match stripCaseless "feat.".toList rest2 with
       | some r => wsPlusDotPlusEnd r
       | none => none) <|>
      (match stripCaseless "ft.".toList rest2 with
       | some r => wsPlusDotPlusEnd r
       | none => none) <|>
      (match stripCaseless "featuring".toList rest2 with
       | some r => wsPlusDotPlusEnd r
       | none => none)
    else none

/-- Python `re.sub` over the whole input for an anchored matcher: scan left to
right, replace each non-overlapping match, fuelled by the input length (every
matcher used here consumes at least one character per match). -/
def subScan (matchAt : List Char → Option (List Char)) (repl : List Char) :
    Nat → List Char → List Char
  | 0, cs => cs
  | _ + 1, [] => []
  | fuel + 1, c :: cs =>
    match matchAt (c :: cs) with
    | some rest => repl ++ subScan matchAt repl fuel rest
    | none => c :: subScan matchAt repl fuel cs

def reSub (matchAt : List Char → Option (List Char)) (repl : List Char)
    (cs : List Char) : List Char :=
  subScan matchAt repl cs.length cs

def pyStrip (s : String) : String :=
  String.mk (stripChars s.toList)

/-- Embeds `_clean_title` (LRCLIB.py lines 48-51). -/
def clean_title (s : String) : String :=
  String.mk (normalizeWs (reSub matchDash [] (reSub matchBracket [' '] s.toList)))

/-- Embeds `_clean_artist` (LRCLIB.py lines 54-56). -/
def clean_artist (s : String) : String :=
  String.mk (normalizeWs (reSub matchFeat [] s.toList))

def isSepChar (c : Char) : Bool :=
  c == ',' || c == '&' || c == '/' || c == ';' || c == '+'

/-- Does `\s*(?:,|&|/|;|\+)` match at the head of the input? -/
def headIsSepAfterWs (cs : List Char) : Bool :=
  match cs.dropWhile pyIsSpace with
  | c :: _ => isSepChar c
  | [] => false

/-- The part before the leftmost match of `\s*(?:,|&|/|;|\+)\s*`, i.e.
`re.split(sep, text, maxsplit=1)[0]`. -/
def splitFirstSep : List Char → List Char
  | [] => []
  | c :: cs => if headIsSepAfterWs (c :: cs) then [] else c :: splitFirstSep cs

/-- Embeds `_primary_artist` (LRCLIB.py lines 59-64). -/
def primary_artist (s : String) : String :=
  let t := stripChars s.toList
  if t.isEmpty then ""
  else String.mk (stripChars (splitFirstSep t))

/-! ### Lyrics query candidates (LRCLIB.py `_build_query_candidates`) -/

/-- Models Python `int(round(duration_ms / 1000))`: true division yields the
rational `ms / 1000` (the float quotient is exact at every representable tie
and never crosses a tie boundary at song-length magnitudes) and `round` rounds
half to even. -/
def pyRound1000 (ms : Int) : Int :=
  if ms - 1000 * Int.fdiv ms 1000 < 500 then Int.fdiv ms 1000
  else if 500 < ms - 1000 * Int.fdiv ms 1000 then Int.fdiv ms 1000 + 1
  else if Int.fdiv ms 1000 % 2 = 0 then Int.fdiv ms 1000
  else Int.fdiv ms 1000 + 1

structure Query where
  artist_name : String
  track_name : String
  album_name : String
  duration : Int
deriving Repr, DecidableEq

/-- The dedup key used by `_build_query_candidates`. -/
def Query.key (q : Query) : String × String × String × Int :=
  (q.track_name, q.artist_name, q.album_name, q.duration)

def comboKey (c : String × String × String) (d : Int) : String × String × String × Int :=
  (c.1, c.2.1, c.2.2, d)

/-- Local `album_raw` of `_build_query_candidates`: `album_name.strip() if album_name else ""`. -/
def albumRawOf (album_name : String) : String :=
  if album_name = "" then "" else pyStrip album_name

/-- Local `artist_primary`: `_primary_artist(artist_clean or artist_raw)`. -/
def primaryOf (artist_name : String) : String :=
  primary_artist (if clean_artist (pyStrip artist_name) = "" then pyStrip artist_name
                  else clean_artist (pyStrip artist_name))

/-- Local `album_clean`: `_clean_title(album_raw) if album_raw else ""`. -/
def albumCleanOf (album_name : String) : String :=
  if albumRawOf album_name = "" then "" else clean_title (albumRawOf album_name)

/-- The `combos` list of `_build_query_candidates` (LRCLIB.py lines 80-88), with
the local variables of the source inlined. -/
def queryCombos (track_name artist_name album_name : String) :
    List (String × String × String) :=
  [ (pyStrip track_name, pyStrip artist_name, albumRawOf album_name),
    (pyStrip track_name, pyStrip artist_name, ""),
    (clean_title (pyStrip track_name), clean_artist (pyStrip artist_name), albumRawOf album_name),
    (clean_title (pyStrip track_name), clean_artist (pyStrip artist_name), ""),
    (clean_title (pyStrip track_name), primaryOf artist_name, ""),
    (pyStrip track_name, primaryOf artist_name, ""),
    (clean_title (pyStrip track_name), clean_artist (pyStrip artist_name), albumCleanOf album_name) ]

/-- The dedup loop of `_build_query_candidates` (LRCLIB.py lines 90-107): skip
combos with an empty track or artist, skip keys already seen, otherwise emit a
query and record the key. -/
def dedupCombos (d : Int) : List (String × String × String) →
    List (String × String × String × Int) → List Query
  | [], _ => []
  | c :: rest, seen =>
    if c.1 = "" ∨ c.2.1 = "" then dedupCombos d rest seen
    else if comboKey c d ∈ seen then dedupCombos d rest seen
    else ⟨c.2.1, c.1, c.2.2, d⟩ :: dedupCombos d rest (comboKey c d :: seen)

/-- Embeds `_build_query_candidates` (LRCLIB.py lines 67-107). -/
def build_query_candidates (track_name artist_name album_name : String)
    (duration_ms : Int) : List Query :=
  dedupCombos (max 1 (pyRound1000 duration_ms))
    (queryCombos track_name artist_name album_name) []

theorem dedupCombos_key_notin_seen (d : Int) :
    ∀ (combos : List (String × String × String))
      (seen : List (String × String × String × Int)),
      ∀ q ∈ dedupCombos d combos seen, Query.key q ∉ seen := by
  intro combos
  induction combos with
  | nil => intro seen q hq; simp [dedupCombos] at hq
  | cons c rest ih =>
    intro seen q hq
    by_cases hc : c.1 = "" ∨ c.2.1 = ""
    · rw [dedupCombos, if_pos hc] at hq
      exact ih seen q hq
    · rw [dedupCombos, if_neg hc] at hq
      by_cases hseen : comboKey c d ∈ seen
      · rw [if_pos hseen] at hq
        exact ih seen q hq
      · rw [if_neg hseen] at hq
        rcases List.mem_cons.mp hq with rfl | hq2
        · simpa [Query.key, comboKey] using hseen
        · intro hmem
          exact ih _ q hq2 (List.mem_cons_of_mem _ hmem)

theorem dedupCombos_pairwise (d : Int) :
    ∀ combos seen,
      List.Pairwise (fun a b => Query.key a ≠ Query.key b) (dedupCombos d combos seen) := by
  intro combos
  induction combos with
  | nil => intro seen; simp [dedupCombos]
  | cons c rest ih =>
    intro seen
    by_cases hc : c.1 = "" ∨ c.2.1 = ""
    · rw [dedupCombos, if_pos hc]; exact ih seen
    · rw [dedupCombos, if_neg hc]
      by_cases hseen : comboKey c d ∈ seen
      · rw [if_pos hseen]; exact ih seen
      · rw [if_neg hseen]
        refine List.Pairwise.cons ?_ (ih _)
        intro b hb heq
        apply dedupCombos_key_notin_seen d rest _ b hb
        rw [← heq]
        exact List.mem_cons_self _ _

theorem dedupCombos_duration (d : Int) :
    ∀ combos seen, ∀ q ∈ dedupCombos d combos seen, q.duration = d := by
  intro combos
  induction combos with
  | nil => intro seen q hq; simp [dedupCombos] at hq
  | cons c rest ih =>
    intro seen q hq
    by_cases hc : c.1 = "" ∨ c.2.1 = ""
    · rw [dedupCombos, if_pos hc] at hq
      exact ih seen q hq
    · rw [dedupCombos, if_neg hc] at hq
      by_cases hseen : comboKey c d ∈ seen
      · rw [if_pos hseen] at hq
        exact ih seen q hq
      · rw [if_neg hseen] at hq
        rcases List.mem_cons.mp hq with rfl | hq2
        · rfl
        · exact ih _ q hq2

theorem dedupCombos_covers (d : Int) :
    ∀ combos seen c, c ∈ combos → ¬ c.1 = "" → ¬ c.2.1 = "" →
      comboKey c d ∈ seen ∨
      ∃ q ∈ dedupCombos d combos seen, Query.key q = comboKey c d := by
  intro combos
  induction combos with
  | nil => intro seen c hc; simp at hc
  | cons c0 rest ih =>
    intro seen c hc h1 h2
    rcases List.mem_cons.mp hc with rfl | hcr
    · rw [dedupCombos, if_neg (by tauto)]
      by_cases hseen : comboKey c d ∈ seen
      · exact Or.inl hseen
      · rw [if_neg hseen]
        exact Or.inr ⟨_, List.mem_cons_self _ _, rfl⟩
    · by_cases hc0 : c0.1 = "" ∨ c0.2.1 = ""
      · rw [dedupCombos, if_pos hc0]
        exact ih seen c hcr h1 h2
      · rw [dedupCombos, if_neg hc0]
        by_cases hseen : comboKey c0 d ∈ seen
        · rw [if_pos hseen]
          exact ih seen c hcr h1 h2
        · rw [if_neg hseen]
          rcases ih (comboKey c0 d :: seen) c hcr h1 h2 with hl | ⟨q, hq, hkey⟩
          · rcases List.mem_cons.mp hl with heq | hl2
            · exact Or.inr ⟨_, List.mem_cons_self _ _, heq.symm⟩
            · exact Or.inl hl2
          · exact Or.inr ⟨q, List.mem_cons_of_mem _ hq, hkey⟩

theorem pyRound1000_close (ms : Int) :
    |ms - 1000 * pyRound1000 ms| ≤ 500 := by
  have hfd : Int.fdiv ms 1000 = ms / 1000 := Int.fdiv_eq_ediv ms (by norm_num)
  rw [abs_le]
  unfold pyRound1000
  rw [hfd]
  split_ifs <;> omega

/-- C8: the generated candidate list has pairwise-distinct
(track, artist, album, duration) keys; every candidate's duration is the
millisecond duration rounded to whole seconds (within half a second) with a
minimum of 1; and for title "Song (Remastered 2011)" with artist "A feat. B"
the list contains a cleaned candidate with track "Song" and artist "A". -/
theorem C8_candidate_list (track_name artist_name album_name : String)
    (duration_ms : Int) (hpos : 0 < duration_ms) :
    List.Pairwise (fun a b => Query.key a ≠ Query.key b)
      (build_query_candidates track_name artist_name album_name duration_ms) ∧
    (∀ q ∈ build_query_candidates track_name artist_name album_name duration_ms,
      q.duration = max 1 (pyRound1000 duration_ms)) ∧
    |duration_ms - 1000 * pyRound1000 duration_ms| ≤ 500 ∧
    1 ≤ max 1 (pyRound1000 duration_ms) ∧
    (track_name = "Song (Remastered 2011)" → artist_name = "A feat. B" →
      ∃ q ∈ build_query_candidates track_name artist_name album_name duration_ms,
        q.track_name = "Song" ∧ q.artist_name = "A") := by
  refine ⟨dedupCombos_pairwise _ _ _, dedupCombos_duration _ _ _, pyRound1000_close _,
    le_max_left _ _, ?_⟩
  intro h1 h2
  subst h1
  subst h2
  have e1 : clean_title (pyStrip "Song (Remastered 2011)") = "Song" := by decide
  have e2 : clean_artist (pyStrip "A feat. B") = "A" := by decide
  have hmem : ("Song", "A", albumRawOf album_name) ∈
      queryCombos "Song (Remastered 2011)" "A feat. B" album_name := by
    simp only [queryCombos]
    rw [e1, e2]
    exact List.mem_cons_of_mem _ (List.mem_cons_of_mem _ (List.mem_cons_self _ _))
  have hcov := dedupCombos_covers (max 1 (pyRound1000 duration_ms))
    (queryCombos "Song (Remastered 2011)" "A feat. B" album_name) []
    ("Song", "A", albumRawOf album_name) hmem (by simp) (by simp)
  rcases hcov with hl | ⟨q, hq, hkey⟩
  · simp at hl
  · refine ⟨q, hq, ?_, ?_⟩
    · exact congrArg (fun t => t.1) hkey
    · exact congrArg (fun t => t.2.1) hkey

theorem C8_candidate_list_witness :
    (build_query_candidates "Song (Remastered 2011)" "A feat. B" "Alb" 180400).any
      (fun q => q.track_name == "Song" && q.artist_name == "A") = true := by
  have h := (C8_candidate_list "Song (Remastered 2011)" "A feat. B" "Alb" 180400
    (by decide)).2.2.2.2 rfl rfl
  rcases h with ⟨q, hq, ht, ha⟩
  rw [List.any_eq_true]
  exact ⟨q, hq, by simp [ht, ha]⟩

/-! ### Lyrics fetch outcome aggregation (LRCLIB.py `LrclibClient.fetch_synced`) -/

/-- Outcome of one `self._request(query)` call: a parsed result, a raised
`LyricsNotFoundError` (HTTP 404), or `None` (any other failure: network error,
malformed payload, payload without parseable lyrics). -/
inductive AttemptOutcome where
  | found (lyrics : SyncedLyrics)
  | notFound
  | otherFailure
deriving Repr, DecidableEq

/-- Overall outcome of `fetch_synced`: a parsed result, a silent `None`, or a
raised `LyricsNotFoundError`. -/
inductive FetchResult where
  | lyrics (l : SyncedLyrics)
  | noLyrics
  | notFoundError
deriving Repr, DecidableEq

/-- Embeds the candidate loop of `fetch_synced` (LRCLIB.py lines 144-157),
tracking `saw_not_found` and `saw_other_failure`; also returns the list of
queries for which a request was issued. -/
def fetchLoop (attempt : Query → AttemptOutcome) :
    List Query → Bool → Bool → FetchResult × List Query
  | [], sawNF, sawOther =>
    (if sawNF && !sawOther then FetchResult.notFoundError else FetchResult.noLyrics, [])
  | q :: qs, sawNF, sawOther =>
    match attempt q with
    | .found l => (.lyrics l, [q])
    | .notFound =>
      let r := fetchLoop attempt qs true sawOther
      (r.1, q :: r.2)
    | .otherFailure =>
      let r := fetchLoop attempt qs sawNF true
      (r.1, q :: r.2)

/-- Embeds `fetch_synced` (LRCLIB.py lines 133-157): the guard on empty track or
artist or non-positive duration returns `None` before any candidate is built,
otherwise the candidate loop runs. The second component is the list of queries
actually requested. -/
def fetch_synced (attempt : Query → AttemptOutcome)
    (track_name artist_name album_name : String) (duration_ms : Int) :
    FetchResult × List Query :=
  if track_name = "" ∨ artist_name = "" ∨ duration_ms ≤ 0 then (.noLyrics, [])
  else fetchLoop attempt
    (build_query_candidates track_name artist_name album_name duration_ms) false false

theorem fetchLoop_no_found (attempt : Query → AttemptOutcome) (qs : List Query)
    (hnf : ∀ q ∈ qs, ∀ l, attempt q ≠ AttemptOutcome.found l) :
    ∀ sawNF sawOther : Bool,
      ((fetchLoop attempt qs sawNF sawOther).1 = FetchResult.notFoundError ↔
        ((sawNF = true ∨ ∃ q ∈ qs, attempt q = AttemptOutcome.notFound) ∧
         sawOther = false ∧ ∀ q ∈ qs, attempt q ≠ AttemptOutcome.otherFailure)) ∧
      ((fetchLoop attempt qs sawNF sawOther).1 = FetchResult.notFoundError ∨
       (fetchLoop attempt qs sawNF sawOther).1 = FetchResult.noLyrics) := by
  induction qs with
  | nil =>
    intro sawNF sawOther
    constructor
    · cases sawNF <;> cases sawOther <;> simp [fetchLoop]
    · cases sawNF <;> cases sawOther <;> simp [fetchLoop]
  | cons q qs ih =>
    intro sawNF sawOther
    have hq := hnf q (List.mem_cons_self q qs)
    have hrest : ∀ x ∈ qs, ∀ l, attempt x ≠ AttemptOutcome.found l :=
      fun x hx => hnf x (List.mem_cons_of_mem q hx)
    cases hat : attempt q with
    | found l => exact absurd hat (hq l)
    | notFound =>
      have := (ih hrest) true sawOther
      constructor
      · rw [show (fetchLoop attempt (q :: qs) sawNF sawOther).1 =
            (fetchLoop attempt qs true sawOther).1 by simp [fetchLoop, hat]]
        rw [this.1]
        constructor
        · rintro ⟨-, h2, h3⟩
          exact ⟨Or.inr ⟨q, List.mem_cons_self q qs, hat⟩, h2, fun x hx =>
            by rcases List.mem_cons.mp hx with rfl | hx2
               · rw [hat]; intro hc; cases hc
               · exact h3 x hx2⟩
        · rintro ⟨-, h2, h3⟩
          exact ⟨Or.inl rfl, h2, fun x hx => h3 x (List.mem_cons_of_mem q hx)⟩
      · rw [show (fetchLoop attempt (q :: qs) sawNF sawOther).1 =
            (fetchLoop attempt qs true sawOther).1 by simp [fetchLoop, hat]]
        exact this.2
    | otherFailure =>
      have := (ih hrest) sawNF true
      constructor
      · rw [show (fetchLoop attempt (q :: qs) sawNF sawOther).1 =
            (fetchLoop attempt qs sawNF true).1 by simp [fetchLoop, hat]]
        rw [this.1]
        constructor
        · rintro ⟨-, h2, -⟩
          cases h2
        · rintro ⟨-, -, h3⟩
          exact absurd hat (h3 q (List.mem_cons_self q qs))
      · rw [show (fetchLoop attempt (q :: qs) sawNF sawOther).1 =
            (fetchLoop attempt qs sawNF true).1 by simp [fetchLoop, hat]]
        exact this.2

/-- C4: when no candidate yields a parsed result, `fetch_synced` raises the
not-found outcome exactly when at least one candidate returned not-found and no
candidate failed in any other way; with any other failure mixed in, the fetch
returns no lyrics silently. -/
theorem C4_not_found_aggregation (attempt : Query → AttemptOutcome)
    (track_name artist_name album_name : String) (duration_ms : Int)
    (hguard : ¬ (track_name = "" ∨ artist_name = "" ∨ duration_ms ≤ 0))
    (hnf : ∀ q ∈ build_query_candidates track_name artist_name album_name duration_ms,
      ∀ l, attempt q ≠ AttemptOutcome.found l) :
    ((fetch_synced attempt track_name artist_name album_name duration_ms).1 =
        FetchResult.notFoundError ↔
      ((∃ q ∈ build_query_candidates track_name artist_name album_name duration_ms,
          attempt q = AttemptOutcome.notFound) ∧
       (∀ q ∈ build_query_candidates track_name artist_name album_name duration_ms,
          attempt q ≠ AttemptOutcome.otherFailure))) ∧
    ((fetch_synced attempt track_name artist_name album_name duration_ms).1 =
        FetchResult.notFoundError ∨
     (fetch_synced attempt track_name artist_name album_name duration_ms).1 =
        FetchResult.noLyrics) := by
  have hmain := fetchLoop_no_found attempt
    (build_query_candidates track_name artist_name album_name duration_ms) hnf false false
  rw [show fetch_synced attempt track_name artist_name album_name duration_ms =
      fetchLoop attempt (build_query_candidates track_name artist_name album_name duration_ms)
        false false by simp [fetch_synced, hguard]]
  constructor
  · rw [hmain.1]
    constructor
    · rintro ⟨h1, -, h3⟩
      rcases h1 with h1 | h1
      · cases h1
      · exact ⟨h1, h3⟩
    · rintro ⟨h1, h3⟩
      exact ⟨Or.inr h1, rfl, h3⟩
  · exact hmain.2

theorem C4_not_found_aggregation_witness :
    (fetch_synced (fun _ => AttemptOutcome.notFound) "Song" "A" "" 180400).1 =
      FetchResult.notFoundError ∧
    (fetch_synced (fun q => if q.album_name = "" then AttemptOutcome.otherFailure
        else AttemptOutcome.notFound) "Song" "A" "Alb" 180400).1 =
      FetchResult.noLyrics := by
  constructor
  · have h := C4_not_found_aggregation (fun _ => AttemptOutcome.notFound)
      "Song" "A" "" 180400 (by decide) (by intro q hq l; simp)
    refine h.1.mpr ⟨⟨⟨"A", "Song", "", 180⟩, ?_, rfl⟩, fun q hq => by simp⟩
    decide
  · have h := C4_not_found_aggregation
      (fun q => if q.album_name = "" then AttemptOutcome.otherFailure
        else AttemptOutcome.notFound) "Song" "A" "Alb" 180400 (by decide)
      (by intro q hq l
          by_cases hb : q.album_name = "" <;> simp [hb])
    rcases h.2 with hr | hr
    · exfalso
      rcases h.1.mp hr with ⟨-, hall⟩
      have hmem : (⟨"A", "Song", "", 180⟩ : Query) ∈
          build_query_candidates "Song" "A" "Alb" 180400 := by decide
      exact hall _ hmem (by simp)
    · exact hr

/-- C10: the guard at the head of `fetch_synced` makes every call with an empty
track name, empty artist name, or non-positive duration return no lyrics
immediately: no candidate query is requested and nothing is raised. -/
theorem C10_fetch_guard (attempt : Query → AttemptOutcome)
    (track_name artist_name album_name : String) (duration_ms : Int)
    (h : track_name = "" ∨ artist_name = "" ∨ duration_ms ≤ 0) :
    fetch_synced attempt track_name artist_name album_name duration_ms =
      (FetchResult.noLyrics, []) := by
  simp [fetch_synced, h]

theorem C10_fetch_guard_witness :
    fetch_synced (fun _ => AttemptOutcome.notFound) "" "A" "Alb" 180400 =
      (FetchResult.noLyrics, []) ∧
    fetch_synced (fun _ => AttemptOutcome.notFound) "Song" "A" "Alb" 0 =
      (FetchResult.noLyrics, []) :=
  ⟨C10_fetch_guard _ "" "A" "Alb" 180400 (Or.inl rfl),
   C10_fetch_guard _ "Song" "A" "Alb" 0 (Or.inr (Or.inr (by norm_num)))⟩

/-! ### Lyrics cache filtering (settings.py `_coerce_lyrics_cache`)

The persisted configuration is JSON, embedded as the dynamic value type `JVal`.
Python type checks are embedded faithfully: `isinstance(x, int)` is true for a
bool (bool is a subclass of int), and `dict.get` returns the value under a key
or None. -/

inductive JVal where
  | jnull
  | jbool (b : Bool)
  | jint (n : Int)
  | jstr (s : String)
  | jlist (xs : List JVal)
  | jobj (kvs : List (JVal × JVal))

/-- Python `isinstance(x, int)`; true for bools as well. -/
def JVal.isIntLike : JVal → Bool
  | .jint _ => true
  | .jbool _ => true
  | _ => false

/-- The integer value of an int-like JSON value. -/
def JVal.asInt : JVal → Int
  | .jint n => n
  | .jbool b => if b then 1 else 0
  | _ => 0

/-- Python `isinstance(x, str)`. -/
def JVal.isStr : JVal → Bool
  | .jstr _ => true
  | _ => false

/-- Python `dict.get(key)` for a string key over an association list. -/
def jget (kvs : List (JVal × JVal)) (key : String) : Option JVal :=
  (kvs.find? (fun kv =>
    match kv.1 with
    | .jstr s => s == key
    | _ => false)).map (fun kv => kv.2)

/-- Python `entry.get(key)` when the entry may not be a dict. -/
def JVal.get (e : JVal) (key : String) : Option JVal :=
  match e with
  | .jobj kvs => jget kvs key
  | _ => none

/-- Embeds the per-entry filter of `_coerce_lyrics_cache` (settings.py lines
170-179): non-dict entries are dropped, `at_ms` must be a non-negative int and
`text` a str, and kept entries are rebuilt as a fresh two-key dict that keeps
the original `at_ms` and `text` values. -/
def entryCoerce : JVal → Option JVal
  | .jobj kvs =>
    match jget kvs "at_ms", jget kvs "text" with
    | some a, some t =>
      if a.isIntLike && decide (0 ≤ a.asInt) && t.isStr then
        some (.jobj [(.jstr "at_ms", a), (.jstr "text", t)])
      else none
    | _, _ => none
  | _ => none

/-- The validity criterion of the claim: the entry is a dict whose `at_ms` is a
non-negative integer and whose `text` is a string. -/
def entryValid (e : JVal) : Bool :=
  match e with
  | .jobj kvs =>
    match jget kvs "at_ms", jget kvs "text" with
    | some a, some t => a.isIntLike && decide (0 ≤ a.asInt) && t.isStr
    | _, _ => false
  | _ => false

/-- Embeds the outer loop of `_coerce_lyrics_cache` (settings.py lines 162-182):
keys must be strings and values lists; a key whose filtered entry list is empty
is dropped. -/
def coerceKvs : List (JVal × JVal) → List (JVal × JVal)
  | [] => []
  | (k, lines) :: rest =>
    match k, lines with
    | .jstr ks, .jlist ls =>
      if (ls.filterMap entryCoerce).isEmpty then coerceKvs rest
      else (.jstr ks, .jlist (ls.filterMap entryCoerce)) :: coerceKvs rest
    | _, _ => coerceKvs rest

/-- Embeds `_coerce_lyrics_cache`: a non-dict payload yields the empty cache. -/
def coerce_lyrics_cache : JVal → JVal
  | .jobj kvs => .jobj (coerceKvs kvs)
  | _ => .jobj []

theorem entryCoerce_fix (e e2 : JVal) (h : entryCoerce e = some e2) :
    entryCoerce e2 = some e2 := by
  cases e with
  | jobj kvs =>
    simp only [entryCoerce] at h
    cases hga : jget kvs "at_ms" with
    | none =>
      rw [hga] at h
      cases hgt : jget kvs "text" <;> rw [hgt] at h <;> dsimp only at h <;>
        exact Option.noConfusion h
    | some a =>
      rw [hga] at h
      cases hgt : jget kvs "text" with
      | none =>
        rw [hgt] at h
        dsimp only at h
        exact Option.noConfusion h
      | some t =>
        rw [hgt] at h
        dsimp only at h
        by_cases hcond : (a.isIntLike && decide (0 ≤ a.asInt) && t.isStr) = true
        · rw [if_pos hcond] at h
          obtain rfl : JVal.jobj [(.jstr "at_ms", a), (.jstr "text", t)] = e2 :=
            Option.some.inj h
          simp only [entryCoerce]
          have hja : jget [(JVal.jstr "at_ms", a), (JVal.jstr "text", t)] "at_ms" = some a := rfl
          have hjt : jget [(JVal.jstr "at_ms", a), (JVal.jstr "text", t)] "text" = some t := rfl
          rw [hja, hjt]
          dsimp only
          rw [if_pos hcond]
        · rw [if_neg hcond] at h
          exact Option.noConfusion h
  | jnull => exact Option.noConfusion h
  | jbool b => exact Option.noConfusion h
  | jint n => exact Option.noConfusion h
  | jstr s => exact Option.noConfusion h
  | jlist xs => exact Option.noConfusion h

theorem filterMap_entryCoerce_fix (ls : List JVal) :
    (ls.filterMap entryCoerce).filterMap entryCoerce = ls.filterMap entryCoerce := by
  induction ls with
  | nil => simp
  | cons e ls ih =>
    cases he : entryCoerce e with
    | none => simp [List.filterMap_cons, he, ih]
    | some e2 => simp [List.filterMap_cons, he, entryCoerce_fix e e2 he, ih]

theorem coerceKvs_idem (kvs : List (JVal × JVal)) :
    coerceKvs (coerceKvs kvs) = coerceKvs kvs := by
  induction kvs with
  | nil => rfl
  | cons kv rest ih =>
    rcases kv with ⟨k, lines⟩
    cases k with
    | jstr ks =>
      cases lines with
      | jlist ls =>
        by_cases hempty : (ls.filterMap entryCoerce).isEmpty = true
        · have hred : coerceKvs ((JVal.jstr ks, JVal.jlist ls) :: rest) = coerceKvs rest := by
            simp only [coerceKvs]
            rw [if_pos hempty]
          rw [hred, ih]
        · have hred : coerceKvs ((JVal.jstr ks, JVal.jlist ls) :: rest) =
              (JVal.jstr ks, JVal.jlist (ls.filterMap entryCoerce)) :: coerceKvs rest := by
            simp only [coerceKvs]
            rw [if_neg hempty]
          have hred2 : coerceKvs ((JVal.jstr ks,
                JVal.jlist (ls.filterMap entryCoerce)) :: coerceKvs rest) =
              (JVal.jstr ks, JVal.jlist (ls.filterMap entryCoerce)) ::
                coerceKvs (coerceKvs rest) := by
            simp only [coerceKvs]
            rw [filterMap_entryCoerce_fix]
            rw [if_neg hempty]
          rw [hred, hred2, ih]
      | jnull => exact ih
      | jbool b => exact ih
      | jint n => exact ih
      | jstr s => exact ih
      | jobj o => exact ih
    | jnull => exact ih
    | jbool b => exact ih
    | jint n => exact ih
    | jlist xs => exact ih
    | jobj o => exact ih

theorem entryCoerce_none_iff (e : JVal) :
    entryCoerce e = none ↔ entryValid e = false := by
  cases e with
  | jobj kvs =>
    simp only [entryCoerce, entryValid]
    cases jget kvs "at_ms" with
    | none => cases jget kvs "text" <;> simp
    | some a =>
      cases jget kvs "text" with
      | none => simp
      | some t =>
        by_cases hcond : (a.isIntLike && decide (0 ≤ a.asInt) && t.isStr) = true
        · simp [hcond]
        · simp [hcond]
  | jnull => simp [entryCoerce, entryValid]
  | jbool b => simp [entryCoerce, entryValid]
  | jint n => simp [entryCoerce, entryValid]
  | jstr s => simp [entryCoerce, entryValid]
  | jlist xs => simp [entryCoerce, entryValid]

theorem entryCoerce_preserves_fields (e e2 : JVal) (h : entryCoerce e = some e2) :
    e.get "at_ms" = e2.get "at_ms" ∧ e.get "text" = e2.get "text" := by
  cases e with
  | jobj kvs =>
    simp only [entryCoerce] at h
    cases hga : jget kvs "at_ms" with
    | none =>
      rw [hga] at h
      cases hgt : jget kvs "text" <;> rw [hgt] at h <;> dsimp only at h <;>
        exact Option.noConfusion h
    | some a =>
      rw [hga] at h
      cases hgt : jget kvs "text" with
      | none =>
        rw [hgt] at h
        dsimp only at h
        exact Option.noConfusion h
      | some t =>
        rw [hgt] at h
        dsimp only at h
        by_cases hcond : (a.isIntLike && decide (0 ≤ a.asInt) && t.isStr) = true
        · rw [if_pos hcond] at h
          obtain rfl : JVal.jobj [(.jstr "at_ms", a), (.jstr "text", t)] = e2 :=
            Option.some.inj h
          constructor
          · rw [JVal.get, hga]
            rfl
          · rw [JVal.get, hgt]
            rfl
        · rw [if_neg hcond] at h
          exact Option.noConfusion h
  | jnull => exact Option.noConfusion h
  | jbool b => exact Option.noConfusion h
  | jint n => exact Option.noConfusion h
  | jstr s => exact Option.noConfusion h
  | jlist xs => exact Option.noConfusion h

/-- The cache used by the counterexample: one key holding one entry that is
valid per the claim (at_ms 0, text "a") but carries an extra field "x". -/
def cacheEx : JVal :=
  JVal.jobj [(JVal.jstr "k", JVal.jlist [JVal.jobj
    [(JVal.jstr "at_ms", JVal.jint 0), (JVal.jstr "text", JVal.jstr "a"),
     (JVal.jstr "x", JVal.jint 1)]])]

/-- C6 counterexample: the single entry of `cacheEx` is valid (non-negative
integer at_ms, string text), yet loading does not leave it unchanged: the
loaded entry has lost its "x" field, so the filter does not leave all valid
entries untouched. -/
theorem C6_counterexample :
    entryValid (JVal.jobj
      [(JVal.jstr "at_ms", JVal.jint 0), (JVal.jstr "text", JVal.jstr "a"),
       (JVal.jstr "x", JVal.jint 1)]) = true ∧
    coerce_lyrics_cache cacheEx =
      JVal.jobj [(JVal.jstr "k", JVal.jlist [JVal.jobj
        [(JVal.jstr "at_ms", JVal.jint 0), (JVal.jstr "text", JVal.jstr "a")]])] ∧
    JVal.get (JVal.jobj
      [(JVal.jstr "at_ms", JVal.jint 0), (JVal.jstr "text", JVal.jstr "a"),
       (JVal.jstr "x", JVal.jint 1)]) "x" = some (JVal.jint 1) ∧
    JVal.get (JVal.jobj
      [(JVal.jstr "at_ms", JVal.jint 0), (JVal.jstr "text", JVal.jstr "a")]) "x" = none :=
  ⟨rfl, rfl, rfl, rfl⟩

/-- C6 (amended): the load filter drops exactly the entries that are invalid
(not a dict, or at_ms missing/negative/not an integer, or text not a string);
every kept entry is rebuilt to the canonical two-field shape preserving its
at_ms and text values; and the filter is idempotent on every cache value. -/
theorem C6_cache_filter_idempotent (v : JVal) :
    coerce_lyrics_cache (coerce_lyrics_cache v) = coerce_lyrics_cache v ∧
    (∀ e : JVal, entryCoerce e = none ↔ entryValid e = false) ∧
    (∀ e e2 : JVal, entryCoerce e = some e2 →
      e.get "at_ms" = e2.get "at_ms" ∧ e.get "text" = e2.get "text") := by
  refine ⟨?_, entryCoerce_none_iff, entryCoerce_preserves_fields⟩
  cases v with
  | jobj kvs =>
    simp only [coerce_lyrics_cache]
    rw [coerceKvs_idem]
  | jnull => rfl
  | jbool b => rfl
  | jint n => rfl
  | jstr s => rfl
  | jlist xs => rfl

/-! ### Command worker supervision loop (ui/window.py `_CommandWorker.run`)

The loop polls a live child process; the process and clock are embedded as an
environment trace indexed by loop iteration: whether the cancel event is set,
the elapsed milliseconds, whether `select` reports a full output line, and the
result of `proc.poll()`. The loop is fuelled; the fuel only bounds the number of
iterations modelled and every claim is proved with sufficient fuel. -/

structure WorkerEnv where
  cancelSet : Nat → Bool
  elapsed_ms : Nat → Int
  lineReady : Nat → Bool
  pollExit : Nat → Option Int

/-- Embeds the `while True` supervision loop of `_CommandWorker.run` (window.py
lines 115-146): each iteration first latches the canceled flag from the cancel
event, then latches the timed-out flag from the elapsed time, then drains an
available output line (restarting the loop), then breaks if the process exited,
then breaks if canceled or timed out. Returns the final (timed_out, canceled)
pair emitted with the `finished` signal, or `none` if the fuel ran out. -/
def workerLoop (timeout_ms : Int) (env : WorkerEnv) :
    Nat → Nat → Bool → Bool → Option (Bool × Bool)
  | 0, _, _, _ => none
  | fuel + 1, t, timedOut, canceled =>
    let canceled2 := canceled || env.cancelSet t
    let timedOut2 := timedOut ||
      (decide (0 < timeout_ms) && decide (timeout_ms < env.elapsed_ms t))
    if env.lineReady t then workerLoop timeout_ms env fuel (t + 1) timedOut2 canceled2
    else if (env.pollExit t).isSome then some (timedOut2, canceled2)
    else if canceled2 || timedOut2 then some (timedOut2, canceled2)
    else workerLoop timeout_ms env fuel (t + 1) timedOut2 canceled2

/-- Embeds the map update of `DeckWindow._on_action_finished` (window.py lines
994-1017): the finished action's key is popped from the running map. -/
def on_action_finished (m : List (String × Nat)) (key : String) : List (String × Nat) :=
  m.filter (fun kv => !(kv.1 == key))

/-- Environment for the counterexample: the cancel event is set from the start
and the first elapsed reading already exceeds the timeout (the process needed
longer than 100 ms to spawn); the process has produced no output and not yet
exited. -/
def envBoth : WorkerEnv where
  cancelSet := fun _ => true
  elapsed_ms := fun _ => 150
  lineReady := fun _ => false
  pollExit := fun _ => none

/-- C3 counterexample: when the cancel request and the timeout fire in the same
poll tick, the completion payload carries timed_out = true and canceled = true
simultaneously, so "exactly one of normal completion, timeout, or cancellation"
is false. -/
theorem C3_counterexample :
    workerLoop 100 envBoth 5 0 false false = some (true, true) := rfl

theorem workerLoop_timeout_only (env : WorkerEnv) (T : Nat)
    (hcancel : ∀ t, env.cancelSet t = false)
    (hline : ∀ t, env.lineReady t = false)
    (hpoll : ∀ t, env.pollExit t = none)
    (hT : 100 < env.elapsed_ms T) :
    ∀ (fuel t0 : Nat), t0 ≤ T → T < t0 + fuel →
      workerLoop 100 env fuel t0 false false = some (true, false) := by
  intro fuel
  induction fuel with
  | zero =>
    intro t0 h1 h2
    omega
  | succ fuel ih =>
    intro t0 h1 h2
    by_cases ht : (100 : Int) < env.elapsed_ms t0
    · simp [workerLoop, hcancel t0, hline t0, hpoll t0, ht]
    · have hne : t0 ≠ T := fun h => ht (h ▸ hT)
      have hrec := ih (t0 + 1) (by omega) (by omega)
      simpa [workerLoop, hcancel t0, hline t0, hpoll t0, ht] using hrec

/-- C3 (amended): a run with timeout_ms = 100 whose command outlives the timeout
(no exit observed, no output, no cancel request) finishes with timed_out = true
and canceled = false, and handling the finished signal removes the action's key
from the running map while keeping every other key. -/
theorem C3_timeout_completion (env : WorkerEnv) (T fuel : Nat)
    (m : List (String × Nat)) (key : String)
    (hcancel : ∀ t, env.cancelSet t = false)
    (hline : ∀ t, env.lineReady t = false)
    (hpoll : ∀ t, env.pollExit t = none)
    (hT : 100 < env.elapsed_ms T)
    (hfuel : T < fuel) :
    workerLoop 100 env fuel 0 false false = some (true, false) ∧
    (∀ v : Nat, (key, v) ∉ on_action_finished m key) ∧
    (∀ kv ∈ m, kv.1 ≠ key → kv ∈ on_action_finished m key) := by
  refine ⟨workerLoop_timeout_only env T hcancel hline hpoll hT fuel 0 (by omega) (by omega),
    ?_, ?_⟩
  · intro v hv
    have := List.of_mem_filter hv
    simp at this
  · intro kv hkv hne
    refine List.mem_filter.mpr ⟨hkv, ?_⟩
    simp [hne]

/-- Environment for the witness: no cancel, no output, no exit, the clock
advancing 60 ms per tick. -/
def envTimeoutOnly : WorkerEnv where
  cancelSet := fun _ => false
  elapsed_ms := fun t => 60 * t
  lineReady := fun _ => false
  pollExit := fun _ => none

theorem C3_timeout_completion_witness :
    workerLoop 100 envTimeoutOnly 3 0 false false = some (true, false) ∧
    (∀ v : Nat, ("k", v) ∉ on_action_finished [("k", 0), ("j", 1)] "k") ∧
    (∀ kv ∈ [("k", 0), ("j", 1)], kv.1 ≠ "k" →
      kv ∈ on_action_finished [("k", 0), ("j", 1)] "k") :=
  C3_timeout_completion envTimeoutOnly 2 3 [("k", 0), ("j", 1)] "k"
    (fun _ => rfl) (fun _ => rfl) (fun _ => rfl) (by decide) (by decide)

/-! ### LRC timestamp parsing (LRCLIB.py `_parse_synced_lyrics`) -/

/-- Line-break characters recognised by Python `str.splitlines`. -/
def isLineBreak (c : Char) : Bool :=
  c == '\n' || c == '\r' || c == '\u000B' || c == '\u000C' ||
  c == '\u001C' || c == '\u001D' || c == '\u001E' || c == '\u0085' ||
  c == '\u2028' || c == '\u2029'

def splitlinesAux : List Char → List Char → List (List Char)
  | [], acc => if acc.isEmpty then [] else [acc.reverse]
  | '\r' :: '\n' :: cs, acc => acc.reverse :: splitlinesAux cs []
  | c :: cs, acc =>
    if isLineBreak c then acc.reverse :: splitlinesAux cs []
    else splitlinesAux cs (c :: acc)

/-- Python `str.splitlines()`: `\r\n` counts as one break; a trailing break adds
no empty final line. -/
def pySplitlines (cs : List Char) : List (List Char) :=
  splitlinesAux cs []

/-- Matcher for `_TS_RE` = `\[(\d+):(\d{2})(?:\.(\d{1,3}))?\]` at the head of
the input (`\d` modelled as ASCII digits); returns the groups
(minutes, seconds, fraction — empty when the optional group did not take part)
and the remainder after the match. The greedy `\d{1,3}` backtracks against the
following `\]`, which inside a maximal digit run succeeds only when the whole
run has one to three digits and is followed by `]`. -/
def matchTS (cs : List Char) : Option ((List Char × List Char × List Char) × List Char) :=
  match cs with
  | '[' :: rest =>
    let m := rest.takeWhile Char.isDigit
    if m.isEmpty then none
    else
      match rest.dropWhile Char.isDigit with
      | ':' :: d1 :: d2 :: r2 =>
        if d1.isDigit && d2.isDigit then
          match r2 with
          | ']' :: r3 => some ((m, [d1, d2], []), r3)
          | '.' :: r3 =>
            let ds := r3.takeWhile Char.isDigit
            if ds.isEmpty then none
            else if ds.length ≤ 3 then
              match r3.dropWhile Char.isDigit with
              | ']' :: r5 => some ((m, [d1, d2], ds), r5)
              | _ => none
            else none
          | _ => none
        else none
      | _ => none
  | _ => none

/-- One pass over a line, producing `_TS_RE.findall` and `_TS_RE.sub("", ·)`
together (both use the same leftmost non-overlapping scan); fuelled by the
input length (every match consumes at least one character). -/
def scanTS : Nat → List Char → List (List Char × List Char × List Char) × List Char
  | 0, cs => ([], cs)
  | _ + 1, [] => ([], [])
  | fuel + 1, c :: cs =>
    match matchTS (c :: cs) with
    | some (g, rest) =>
      let r := scanTS fuel rest
      (g :: r.1, r.2)
    | none =>
      let r := scanTS fuel cs
      (r.1, c :: r.2)

/-- The `stamps` of one raw line: `_TS_RE.findall(raw)`. -/
def lineStamps (raw : List Char) : List (List Char × List Char × List Char) :=
  (scanTS raw.length raw).1

/-- The `text` of one raw line: `_TS_RE.sub("", raw).strip()`. -/
def lineTextStripped (raw : List Char) : List Char :=
  stripChars (scanTS raw.length raw).2

/-- Python `int` on a non-empty digit string. -/
def digitsToNat (cs : List Char) : Nat :=
  cs.foldl (fun acc c => acc * 10 + (c.toNat - 48)) 0

/-- Python `int((frac or "0").ljust(3, "0"))`: the fraction is padded on the
right with zeros to three digits. -/
def fracToMillis (frac : List Char) : Nat :=
  digitsToNat ((if frac.isEmpty then ['0'] else frac) ++
    List.replicate (3 - (if frac.isEmpty then ['0'] else frac).length) '0')

/-- The millisecond conversion for one stamp:
`(minutes * 60 + seconds) * 1000 + millis`. -/
def stampToMs (g : List Char × List Char × List Char) : Int :=
  ((digitsToNat g.1) * 60 + digitsToNat g.2.1) * 1000 + fracToMillis g.2.2

/-- Entries contributed by one raw line (LRCLIB.py lines 112-122): a line with
no stamps or empty stripped text contributes nothing, otherwise one entry per
stamp, each paired with the stripped text. -/
def lineEntries (raw : List Char) : List LyricLine :=
  if (lineStamps raw).isEmpty || (lineTextStripped raw).isEmpty then []
  else (lineStamps raw).map
    (fun g => ⟨stampToMs g, String.mk (lineTextStripped raw)⟩)

/-- The Bool comparison used for the final `lines.sort(key=lambda l: l.at_ms)`. -/
def lineLe (a b : LyricLine) : Bool :=
  decide (a.at_ms ≤ b.at_ms)

/-- The body of `_parse_synced_lyrics` applied to the split lines: collect all
entries, sort ascending by timestamp (Python `list.sort` and `List.mergeSort`
are both stable sorts by the same key, hence compute the same list), and return
`None` when nothing was collected. -/
def parseLines (raws : List (List Char)) : Option SyncedLyrics :=
  if ((raws.flatMap lineEntries).mergeSort lineLe).isEmpty then none
  else some ⟨(raws.flatMap lineEntries).mergeSort lineLe⟩

/-- Embeds `_parse_synced_lyrics` (LRCLIB.py lines 110-124). -/
def parse_synced_lyrics (lrc_text : String) : Option SyncedLyrics :=
  parseLines (pySplitlines lrc_text.toList)

unseal List.merge List.mergeSort

/-- Left-padding reading of the claim: pad the fraction on the left to three
digits. -/
def leftPadMillis (frac : List Char) : Nat :=
  digitsToNat (List.replicate (3 - (if frac.isEmpty then ['0'] else frac).length) '0' ++
    (if frac.isEmpty then ['0'] else frac))

/-- C5 counterexample: on "[00:01.5]hi" the code right-pads the fraction
(`ljust`), producing 1500 ms, whereas the claim's left-padding formula yields
(0*60+1)*1000 + 5 = 1005 ms, so the claim's conversion is false for the code. -/
theorem C5_counterexample :
    parse_synced_lyrics "[00:01.5]hi" = some ⟨[⟨1500, "hi"⟩]⟩ ∧
    ((0 * 60 + 1) * 1000 + leftPadMillis ['5'] : Int) = 1005 ∧
    (1005 : Int) ≠ 1500 := by
  refine ⟨by decide, by decide, by decide⟩

theorem parseLines_none_iff (raws : List (List Char)) :
    parseLines raws = none ↔ raws.flatMap lineEntries = [] := by
  rw [parseLines]
  by_cases hemp : ((raws.flatMap lineEntries).mergeSort lineLe).isEmpty = true
  · rw [if_pos hemp]
    have hnil : (raws.flatMap lineEntries).mergeSort lineLe = [] :=
      List.isEmpty_iff.mp hemp
    have hp := List.mergeSort_perm (raws.flatMap lineEntries) lineLe
    rw [hnil] at hp
    exact ⟨fun _ => hp.symm.eq_nil, fun _ => rfl⟩
  · rw [if_neg hemp]
    simp only [reduceCtorEq, false_iff]
    intro hfm
    apply hemp
    rw [hfm]
    rfl

theorem parseLines_some_eq (raws : List (List Char)) (L : SyncedLyrics)
    (h : parseLines raws = some L) :
    L.lines = (raws.flatMap lineEntries).mergeSort lineLe := by
  rw [parseLines] at h
  by_cases hemp : ((raws.flatMap lineEntries).mergeSort lineLe).isEmpty = true
  · rw [if_pos hemp] at h
    exact Option.noConfusion h
  · rw [if_neg hemp] at h
    have := Option.some.inj h
    rw [← this]

theorem flatMap_perm_of_perm (lrc1 lrc2 : List (List Char)) (hperm : lrc1.Perm lrc2) :
    (lrc1.flatMap lineEntries).Perm (lrc2.flatMap lineEntries) := by
  rw [List.flatMap_def, List.flatMap_def]
  exact (hperm.map lineEntries).flatten

/-- C5 (amended): for every LRC payload, split into lines: the parser pairs each
stamp of a line with the line's stripped text via
(minutes*60+seconds)*1000 + millis with the fraction right-padded (`ljust`) to
three digits; the result is sorted ascending by timestamp and contains exactly
the collected entries; as a multiset it is independent of the input line order;
and a malformed or timestamp-free payload yields `None` (never an error). -/
theorem C5_parse_sorted_complete (lrc1 lrc2 : List (List Char))
    (hperm : lrc1.Perm lrc2) :
    (∀ L, parseLines lrc1 = some L → sortedByAt L.lines) ∧
    (∀ L, parseLines lrc1 = some L → L.lines.Perm (lrc1.flatMap lineEntries)) ∧
    (parseLines lrc1 = none ↔ lrc1.flatMap lineEntries = []) ∧
    (parseLines lrc1 = none ↔ parseLines lrc2 = none) ∧
    (∀ L1 L2, parseLines lrc1 = some L1 → parseLines lrc2 = some L2 →
      L1.lines.Perm L2.lines) ∧
    (∀ raw ∈ lrc1, ∀ e ∈ lineEntries raw,
      e.text = String.mk (lineTextStripped raw) ∧
      ∃ g ∈ lineStamps raw, e.at_ms = stampToMs g) := by
  have hsorted : ∀ raws : List (List Char),
      List.Pairwise (fun a b => lineLe a b = true)
        ((raws.flatMap lineEntries).mergeSort lineLe) := by
    intro raws
    refine List.sorted_mergeSort ?_ ?_ _
    · intro a b c hab hbc
      simp only [lineLe, decide_eq_true_eq] at hab hbc ⊢
      omega
    · intro a b
      simp only [lineLe]
      rcases le_total a.at_ms b.at_ms with h | h
      · simp [h]
      · simp [h]
  refine ⟨?_, ?_, parseLines_none_iff lrc1, ?_, ?_, ?_⟩
  · intro L hL
    rw [sortedByAt, parseLines_some_eq lrc1 L hL]
    exact (hsorted lrc1).imp (fun h => of_decide_eq_true h)
  · intro L hL
    rw [parseLines_some_eq lrc1 L hL]
    exact List.mergeSort_perm _ _
  · rw [parseLines_none_iff lrc1, parseLines_none_iff lrc2]
    have hp := flatMap_perm_of_perm lrc1 lrc2 hperm
    exact ⟨fun h => (h ▸ hp).symm.eq_nil, fun h => (h ▸ hp.symm).symm.eq_nil⟩
  · intro L1 L2 h1 h2
    have e1 : L1.lines.Perm (lrc1.flatMap lineEntries) := by
      rw [parseLines_some_eq lrc1 L1 h1]
      exact List.mergeSort_perm _ _
    have e2 : L2.lines.Perm (lrc2.flatMap lineEntries) := by
      rw [parseLines_some_eq lrc2 L2 h2]
      exact List.mergeSort_perm _ _
    exact (e1.trans (flatMap_perm_of_perm lrc1 lrc2 hperm)).trans e2.symm
  · intro raw _ e he
    rw [lineEntries] at he
    by_cases hguard : ((lineStamps raw).isEmpty || (lineTextStripped raw).isEmpty) = true
    · rw [if_pos hguard] at he
      exact absurd he (List.not_mem_nil e)
    · rw [if_neg hguard] at he
      rcases List.mem_map.mp he with ⟨g, hg, hge⟩
      exact ⟨by rw [← hge], g, hg, by rw [← hge]⟩

theorem C5_parse_sorted_complete_witness :
    parse_synced_lyrics "[00:10]b\n[00:00]a" =
      some ⟨[⟨0, "a"⟩, ⟨10000, "b"⟩]⟩ ∧
    sortedByAt [⟨0, "a"⟩, ⟨10000, "b"⟩] ∧
    parse_synced_lyrics "[00:00]a\n[00:10]b" =
      some ⟨[⟨0, "a"⟩, ⟨10000, "b"⟩]⟩ := by
  have hperm : (pySplitlines ("[00:10]b\n[00:00]a").toList).Perm
      (pySplitlines ("[00:00]a\n[00:10]b").toList) := by
    rw [show pySplitlines ("[00:10]b\n[00:00]a").toList =
      ["[00:10]b".toList, "[00:00]a".toList] by decide]
    rw [show pySplitlines ("[00:00]a\n[00:10]b").toList =
      ["[00:00]a".toList, "[00:10]b".toList] by decide]
    exact List.Perm.swap _ _ _
  have h := C5_parse_sorted_complete _ _ hperm
  exact ⟨by decide, h.1 ⟨[⟨0, "a"⟩, ⟨10000, "b"⟩]⟩ (by decide), by decide⟩

end Touchdeck
